import Mathlib

/-!
Verification development for the skribbl-capture repository (Go).

The source is embedded shallowly:
  * strings are modelled as lists of Unicode code points (`List Nat`) where the
    Go code does rune-level arithmetic, and as `List Char` where it only
    compares characters;
  * files are modelled as a byte list plus a write position (`FileState`);
  * Go's `uint32` arithmetic is modelled on `Nat` with explicit `% 2^32`
    (and `uint16` narrowing with `% 2^16` where a 2-byte field is written);
  * the fallible HTTP handlers are modelled as functions returning `Except`,
    with an oracle (`failAt`) injecting the failures of the external audio
    backend and file system.
-/

/-- Code points of a string literal (used to build the ASCII markers of the
WAV header and concrete device-name inputs). -/
def strBytes (s : String) : List Nat := s.toList.map Char.toNat

/-- Little-endian bytes of a 2-byte field, as written by Go's
`binary.Write(file, binary.LittleEndian, uint16(n))`: the value is truncated
to its low 16 bits. -/
def u16Bytes (n : Nat) : List Nat := [n % 256, n / 256 % 256]

/-- Little-endian bytes of a 4-byte field, as written by Go's
`binary.Write(file, binary.LittleEndian, uint32(n))`: the value is truncated
to its low 32 bits. -/
def u32Bytes (n : Nat) : List Nat :=
  [n % 256, n / 256 % 256, n / 65536 % 256, n / 16777216 % 256]

/-- The 44 header bytes produced by `writeWAVHeader` (main.go:19-41 and the
identical copy in web.go:336-358).  The Go parameters are `uint32`; additions
and multiplications there wrap modulo `2^32`, which the explicit
`% 4294967296` below reproduces (for the 4-byte fields the per-byte
extraction in `u32Bytes` already discards bits above the 32nd, so
`36 + dataSize` needs no explicit reduction). -/
def writeWAVHeader (sampleRate channels bitsPerSample dataSize : Nat) : List Nat :=
  strBytes "RIFF" ++ (u32Bytes (36 + dataSize) ++ (strBytes "WAVE" ++
  (strBytes "fmt " ++ (u32Bytes 16 ++ (u16Bytes 1 ++ (u16Bytes channels ++
  (u32Bytes sampleRate ++
  (u32Bytes (sampleRate * channels * bitsPerSample % 4294967296 / 8) ++
  (u16Bytes (channels * bitsPerSample % 4294967296 / 8) ++
  (u16Bytes bitsPerSample ++
  (strBytes "data" ++ u32Bytes dataSize)))))))))))

/-- Byte of a buffer at an index (0 past the end). -/
def byteAt (l : List Nat) (i : Nat) : Nat := l.getD i 0

/-- Modelled from the spec: the repository contains no header decoder, so the
little-endian read of a 2-byte field at a fixed offset is modelled from the
layout description in section 4.1 of the spec. -/
def readU16 (l : List Nat) (i : Nat) : Nat := byteAt l i + 256 * byteAt l (i + 1)

/-- Modelled from the spec: little-endian read of a 4-byte field at a fixed
offset, from the layout description in section 4.1 of the spec. -/
def readU32 (l : List Nat) (i : Nat) : Nat :=
  byteAt l i + 256 * byteAt l (i + 1) + 65536 * byteAt l (i + 2) +
    16777216 * byteAt l (i + 3)

/-- Modelled from the spec: decoding side of the round-trip law of section 8
item 1 (the repository has no decoder).  Recovers
(sampleRate, channels, bitsPerSample, payloadSize) from the fixed offsets of
the layout in section 4.1. -/
def decodeHeader (l : List Nat) : Nat × Nat × Nat × Nat :=
  (readU32 l 24, readU16 l 22, readU16 l 34, readU32 l 40)

/-- A regular file: its byte contents and the current write position. -/
structure FileState where
  contents : List Nat
  pos : Nat
  deriving DecidableEq, Repr

/-- Overwrite the bytes of `l` starting at offset `i` with `bs` (extending the
buffer when the write runs past the end), as an in-place file write does. -/
def overwriteAt (l : List Nat) (i : Nat) (bs : List Nat) : List Nat :=
  l.take i ++ bs ++ l.drop (i + bs.length)

/-- `File.Write`: store `bs` at the current position and advance it. -/
def fileWrite (f : FileState) (bs : List Nat) : FileState :=
  { contents := overwriteAt f.contents f.pos bs, pos := f.pos + bs.length }

/-- `file.Seek(0, 0)`: reposition the file at its start. -/
def seekStart (f : FileState) : FileState := { f with pos := 0 }

/-- The header patch performed on stop (web.go:218-219, main.go:168-171):
seek to the start and re-run `writeWAVHeader` with the session's
44100 Hz / mono / 16-bit descriptor and the now-known payload size. -/
def patchPayloadSize (f : FileState) (payloadSize : Nat) : FileState :=
  fileWrite (seekStart f) (writeWAVHeader 44100 1 16 payloadSize)

/-- One device's in-flight recording state (`captureDevice`, web.go:361-366),
extended with the resource flags needed to observe the cleanup behaviour:
whether the output file is still open, whether the hardware stream is
running, and whether its handle has been released (`device.Uninit`). -/
structure CaptureChannel where
  name : String
  file : FileState
  fileOpen : Bool
  streamStarted : Bool
  streamReleased : Bool
  totalBytesWritten : Nat
  deriving DecidableEq, Repr

/-- The freshly created output file of a channel: a new file holding the
44-byte placeholder header (payload size 0) written at creation time
(web.go:149-156). -/
def mkChannelFile : FileState := fileWrite ⟨[], 0⟩ (writeWAVHeader 44100 1 16 0)

/-- A channel whose per-device setup fully succeeded: file open with the
placeholder header, stream initialized and started, byte counter 0. -/
def okChannel (name : String) : CaptureChannel :=
  { name := name, file := mkChannelFile, fileOpen := true,
    streamStarted := true, streamReleased := false, totalBytesWritten := 0 }

/-- The channel left behind when `malgo.InitDevice` fails (web.go:180-184):
the file was created with its placeholder header and then closed; the stream
never started. -/
def failedInitChannel (name : String) : CaptureChannel :=
  { okChannel name with fileOpen := false, streamStarted := false }

/-- The channel left behind when `device.Start` fails (web.go:188-193): the
device is uninitialized again (`streamReleased`) and the file closed. -/
def failedStartChannel (name : String) : CaptureChannel :=
  { failedInitChannel name with streamReleased := true }

/-- The per-buffer callback (web.go:171-174): append the received bytes to
the channel's file and add the written count to the `uint32` byte counter
(`cap.totalBytesWritten += uint32(n)` wraps modulo `2^32`; `Write` reports
`n = len(pSample)` on success). -/
def onRecvFrames (c : CaptureChannel) (pSample : List Nat) : CaptureChannel :=
  { c with file := fileWrite c.file pSample,
           totalBytesWritten := (c.totalBytesWritten + pSample.length) % 4294967296 }

/-- Per-channel teardown in `handleStopRecording` (web.go:214-221):
`device.Uninit()` releases the stream, the header is patched with the final
byte counter, and the file is closed. -/
def stopChannelFull (c : CaptureChannel) : CaptureChannel :=
  { c with file := patchPayloadSize c.file c.totalBytesWritten,
           fileOpen := false, streamStarted := false, streamReleased := true }

/-- The global recording state of web.go:15-22: the `isRecording` flag and
the `activeCaptures` list. -/
structure SessionState where
  isRecording : Bool
  activeCaptures : List CaptureChannel
  deriving DecidableEq, Repr

/-- The error responses of `handleStartRecording` (web.go:97-201). -/
inductive StartError where
  | alreadyRecording
  | noDevicesSelected
  | invalidDeviceIndex (idx : Int)
  | fileCreateFailed
  | headerWriteFailed
  | streamInitFailed
  | streamStartFailed
  deriving DecidableEq, Repr

/-- The error response of `handleStopRecording` (web.go:208-211). -/
inductive StopError where
  | notRecording
  deriving DecidableEq, Repr

/-- Which step of per-device setup the external world makes fail (file
creation, header write, `malgo.InitDevice`, `device.Start`).  Note that in
this repository `writeWAVHeader` always returns `nil`, so the header-write
failure branch of web.go:156-160 is dead in the source; the oracle keeps it
reachable so the branch's behaviour can still be stated. -/
inductive SetupFailure where
  | fileCreate
  | headerWrite
  | streamInit
  | streamStart
  deriving DecidableEq, Repr

/-- The HTTP error each setup failure surfaces (web.go:150-193). -/
def errOf : SetupFailure → StartError
  | .fileCreate => .fileCreateFailed
  | .headerWrite => .headerWriteFailed
  | .streamInit => .streamInitFailed
  | .streamStart => .streamStartFailed

/-- What the failing device itself contributes to the local `captures` slice
at the moment `handleStartRecording` returns with an error: nothing when
`os.Create` or the header write fails (the `captureDevice` is only built
afterwards), a closed channel when `InitDevice` or `Start` fails (the
`captureDevice` was already appended and its file is closed on the way out). -/
def wreck (fk : SetupFailure) (name : String) : List CaptureChannel :=
  match fk with
  | .fileCreate => []
  | .headerWrite => []
  | .streamInit => [failedInitChannel name]
  | .streamStart => [failedStartChannel name]

/-- The channel built for device index `idx` on the happy path. -/
def chFor (devices : List String) (idx : Int) : CaptureChannel :=
  okChannel (devices.getD idx.toNat "")

/-- The per-device setup loop of `handleStartRecording` (web.go:128-194).
`devices` is the current enumeration (device names), `failAt` the failure
oracle for the external steps, `acc` the local `captures` slice built so
far.  Returns the handler outcome together with the `captures` slice at the
moment of return (the side-effect trace). -/
def setupLoop (devices : List String) (failAt : Nat → Option SetupFailure) :
    List Int → List CaptureChannel →
    Except StartError (List CaptureChannel) × List CaptureChannel
  | [], acc => (.ok acc, acc)
  | idx :: rest, acc =>
    if idx < 0 ∨ (devices.length : Int) ≤ idx then
      (.error (.invalidDeviceIndex idx), acc)
    else
      match failAt idx.toNat with
      | some .fileCreate => (.error .fileCreateFailed, acc)
      | some .headerWrite => (.error .headerWriteFailed, acc)
      | some .streamInit =>
          (.error .streamInitFailed, acc ++ [failedInitChannel (devices.getD idx.toNat "")])
      | some .streamStart =>
          (.error .streamStartFailed, acc ++ [failedStartChannel (devices.getD idx.toNat "")])
      | none => setupLoop devices failAt rest (acc ++ [okChannel (devices.getD idx.toNat "")])

/-- `handleStartRecording` (web.go:97-201): reject when already recording,
reject an empty selection, run the setup loop, and only on full success
install the new channel list and set the recording flag.  The third
component is the side-effect trace (the local `captures` slice at return). -/
def startSession (st : SessionState) (devices : List String)
    (failAt : Nat → Option SetupFailure) (indices : List Int) :
    Except StartError Unit × SessionState × List CaptureChannel :=
  if st.isRecording then (.error .alreadyRecording, st, [])
  else if indices.isEmpty then (.error .noDevicesSelected, st, [])
  else
    match setupLoop devices failAt indices [] with
    | (.error e, trace) => (.error e, st, trace)
    | (.ok captures, _) =>
        (.ok (), { isRecording := true, activeCaptures := captures }, captures)

/-- `handleStopRecording` (web.go:204-228): reject when not recording;
otherwise tear every active channel down (release stream, patch header,
close file), clear the channel list and the flag.  The third component
reports the final state of the formerly active channels. -/
def stopSession (st : SessionState) :
    Except StopError Unit × SessionState × List CaptureChannel :=
  if st.isRecording then
    (.ok (), { isRecording := false, activeCaptures := [] },
      st.activeCaptures.map stopChannelFull)
  else (.error .notRecording, st, st.activeCaptures)

/-- The restriction of Go's `strings.ToLower` rune map to the ASCII range:
`A`-`Z` (65-90) shift by 32, everything else is kept.  Go additionally
applies the full Unicode case tables (for example 201 'É' lowers to 233
'é'), which this definition does not model, so it agrees with
`strings.ToLower` exactly on code points below 128; every statement built
on it therefore carries an ASCII hypothesis. -/
def goLowerRune (r : Nat) : Nat := if 65 ≤ r ∧ r ≤ 90 then r + 32 else r

/-- The CLI filename derivation of web.go:441:
`strings.ReplaceAll(strings.ToLower(deviceName), " ", "_") + ".wav"` —
lowercase, replace every space (code point 32) with an underscore (95),
append ".wav".  Through `goLowerRune` this matches the Go expression
exactly on device names made of ASCII code points (below 128); names with
non-ASCII uppercase letters would additionally be lowered by Go's Unicode
tables. -/
def cliSafeFilename (name : List Nat) : List Nat :=
  ((name.map goLowerRune).map fun r => if r = 32 then 95 else r) ++ strBytes ".wav"

/-- One rune of `sanitizeFilename` (web.go:270-281): keep `a`-`z`, `A`-`Z`,
`0`-`9` and `-` (45), replace anything else with `_` (95). -/
def sanitizeRune (r : Nat) : Nat :=
  if (97 ≤ r ∧ r ≤ 122) ∨ (65 ≤ r ∧ r ≤ 90) ∨ (48 ≤ r ∧ r ≤ 57) ∨ r = 45
  then r else 95

/-- `sanitizeFilename` (web.go:270-281): the rune-by-rune rebuild of the
device name. -/
def sanitizeFilename (name : List Nat) : List Nat := name.map sanitizeRune

/-- Modelled from the spec: the CLI derivation the claim describes (replace
every character outside the kept class with an underscore, lowercase, append
".wav"), written from the spec's words of section 4.2 so it can be compared
with the source's `cliSafeFilename`. -/
def specCliFilename (name : List Nat) : List Nat :=
  sanitizeFilename (name.map goLowerRune) ++ strBytes ".wav"

/-- Split a path into its slash-separated components (the component view
`path.Clean` works on). -/
def splitOnSlash : List Char → List (List Char)
  | [] => [[]]
  | c :: rest =>
    match splitOnSlash rest with
    | [] => [[]]
    | g :: gs => if c = '/' then [] :: g :: gs else (c :: g) :: gs

/-- One step of the lexical simplification of `path.Clean`: drop empty and
`.` components, let `..` pop the previous component (kept at the start of a
relative path, dropped at the root of an absolute one), push anything else.
`acc` is the processed stack in reverse order. -/
def cleanStep (rooted : Bool) (acc : List (List Char)) (comp : List Char) :
    List (List Char) :=
  if comp = [] ∨ comp = ['.'] then acc
  else if comp = ['.', '.'] then
    match acc with
    | [] => if rooted then [] else [comp]
    | d :: rest => if d = ['.', '.'] then comp :: d :: rest else rest
  else comp :: acc

/-- `filepath.Clean` for slash-separated paths: lexically simplify the
component list and rebuild, yielding "." for an emptied relative path and
keeping the leading slash of an absolute one. -/
def goClean (path : List Char) : List Char :=
  if path = [] then ['.']
  else
    let rooted := path.head? == some '/'
    let comps := (splitOnSlash path).foldl (cleanStep rooted) []
    let out := List.intercalate ['/'] comps.reverse
    if rooted then '/' :: out
    else if out = [] then ['.'] else out

/-- `filepath.Join` of two elements: skip empty elements, join the rest with
a slash, `Clean` the result ("" when both are empty). -/
def goJoin2 (a b : List Char) : List Char :=
  if a = [] ∧ b = [] then []
  else if a = [] then goClean b
  else if b = [] then goClean a
  else goClean (a ++ '/' :: b)

/-- Whether a character is the path separator. -/
def isSlash (c : Char) : Bool := c = '/'

/-- Drop the trailing slashes of a path (first step of `filepath.Base`). -/
def stripTrailingSlashes (s : List Char) : List Char :=
  (s.reverse.dropWhile isSlash).reverse

/-- The maximal slash-free suffix of a path (the part after the last slash,
second step of `filepath.Base`). -/
def afterLastSlash (s : List Char) : List Char :=
  (s.reverse.takeWhile (fun c => !(isSlash c))).reverse

/-- `filepath.Base` for slash-separated paths: "." for the empty path, "/"
for an all-slash path, otherwise the last path element with trailing slashes
removed. -/
def goBase (path : List Char) : List Char :=
  if path = [] then ['.']
  else
    let p := stripTrailingSlashes path
    if p = [] then ['/'] else afterLastSlash p

/-- The recordings output directory (web.go:21). -/
def outputDirectory : List Char := "recordings".toList

/-- `handleDownloadRecording` (web.go:257-268): strip the "/recordings/"
route prefix (12 bytes), join the base name of what remains onto the output
directory, and serve the result only when the joined path still starts with
the output directory (`filepath.HasPrefix`, a lexical check).  `none` models
the "Invalid filename" rejection. -/
def handleDownloadRecording (urlPath : List Char) : Option (List Char) :=
  let filename := urlPath.drop 12
  let fullPath := goJoin2 outputDirectory (goBase filename)
  if outputDirectory.isPrefixOf fullPath then some fullPath else none

example : writeWAVHeader 44100 1 16 0 =
    [82, 73, 70, 70, 36, 0, 0, 0, 87, 65, 86, 69,
     102, 109, 116, 32, 16, 0, 0, 0, 1, 0, 1, 0,
     68, 172, 0, 0, 136, 88, 1, 0, 2, 0, 16, 0,
     100, 97, 116, 97, 0, 0, 0, 0] := by decide

example : decodeHeader (writeWAVHeader 44100 1 16 1000) = (44100, 1, 16, 1000) := by decide

example : handleDownloadRecording "/recordings/a.wav".toList =
    some "recordings/a.wav".toList := by decide

example : handleDownloadRecording "/recordings/..".toList = none := by decide

example : goClean "recordings/../x".toList = "x".toList := by decide

example : sanitizeFilename (strBytes "BlackHole 2ch!") = strBytes "BlackHole_2ch_" := by decide

example : cliSafeFilename (strBytes "BlackHole 2ch!") = strBytes "blackhole_2ch!.wav" := by decide

/-! Helper lemmas about the header bytes. -/

theorem writeWAVHeader_length (s c b d : Nat) : (writeWAVHeader s c b d).length = 44 := rfl

theorem hdrRead4 (s c b d : Nat) (rest : List Nat) :
    readU32 (writeWAVHeader s c b d ++ rest) 4 = (36 + d) % 4294967296 := by
  have e : readU32 (writeWAVHeader s c b d ++ rest) 4 =
      (36 + d) % 256 + 256 * ((36 + d) / 256 % 256) +
      65536 * ((36 + d) / 65536 % 256) + 16777216 * ((36 + d) / 16777216 % 256) := rfl
  rw [e]; omega

theorem hdrRead16 (s c b d : Nat) (rest : List Nat) :
    readU32 (writeWAVHeader s c b d ++ rest) 16 = 16 := rfl

theorem hdrRead20 (s c b d : Nat) (rest : List Nat) :
    readU16 (writeWAVHeader s c b d ++ rest) 20 = 1 := rfl

theorem hdrRead22 (s c b d : Nat) (rest : List Nat) :
    readU16 (writeWAVHeader s c b d ++ rest) 22 = c % 65536 := by
  have e : readU16 (writeWAVHeader s c b d ++ rest) 22 =
      c % 256 + 256 * (c / 256 % 256) := rfl
  rw [e]; omega

theorem hdrRead24 (s c b d : Nat) (rest : List Nat) :
    readU32 (writeWAVHeader s c b d ++ rest) 24 = s % 4294967296 := by
  have e : readU32 (writeWAVHeader s c b d ++ rest) 24 =
      s % 256 + 256 * (s / 256 % 256) +
      65536 * (s / 65536 % 256) + 16777216 * (s / 16777216 % 256) := rfl
  rw [e]; omega

theorem hdrRead28 (s c b d : Nat) (rest : List Nat) :
    readU32 (writeWAVHeader s c b d ++ rest) 28 = s * c * b % 4294967296 / 8 := by
  have e : readU32 (writeWAVHeader s c b d ++ rest) 28 =
      s * c * b % 4294967296 / 8 % 256 +
      256 * (s * c * b % 4294967296 / 8 / 256 % 256) +
      65536 * (s * c * b % 4294967296 / 8 / 65536 % 256) +
      16777216 * (s * c * b % 4294967296 / 8 / 16777216 % 256) := rfl
  rw [e]; omega

theorem hdrRead32 (s c b d : Nat) (rest : List Nat) :
    readU16 (writeWAVHeader s c b d ++ rest) 32 = c * b % 4294967296 / 8 % 65536 := by
  have e : readU16 (writeWAVHeader s c b d ++ rest) 32 =
      c * b % 4294967296 / 8 % 256 +
      256 * (c * b % 4294967296 / 8 / 256 % 256) := rfl
  rw [e]; omega

theorem hdrRead34 (s c b d : Nat) (rest : List Nat) :
    readU16 (writeWAVHeader s c b d ++ rest) 34 = b % 65536 := by
  have e : readU16 (writeWAVHeader s c b d ++ rest) 34 =
      b % 256 + 256 * (b / 256 % 256) := rfl
  rw [e]; omega

theorem hdrRead40 (s c b d : Nat) (rest : List Nat) :
    readU32 (writeWAVHeader s c b d ++ rest) 40 = d % 4294967296 := by
  have e : readU32 (writeWAVHeader s c b d ++ rest) 40 =
      d % 256 + 256 * (d / 256 % 256) +
      65536 * (d / 65536 % 256) + 16777216 * (d / 16777216 % 256) := rfl
  rw [e]; omega

theorem hdrByteIndep (d e : Nat) (r q : List Nat) (i : Nat) (hi : i < 44)
    (hne : i < 4 ∨ 8 ≤ i ∧ i ≤ 39) :
    byteAt (writeWAVHeader 44100 1 16 d ++ r) i =
      byteAt (writeWAVHeader 44100 1 16 e ++ q) i := by
  interval_cases i <;> first | rfl | (rcases hne with h | h <;> omega)

/-! Helper lemmas about the file model. -/

theorem fileWrite_append (f : FileState) (bs : List Nat)
    (h : f.pos = f.contents.length) :
    fileWrite f bs = ⟨f.contents ++ bs, f.contents.length + bs.length⟩ := by
  unfold fileWrite overwriteAt
  rw [h, List.take_length, List.drop_eq_nil_of_le (by omega), List.append_nil]

theorem mkChannelFile_eq : mkChannelFile = ⟨writeWAVHeader 44100 1 16 0, 44⟩ := by decide

theorem patchPayloadSize_eq (f : FileState) (n : Nat) :
    patchPayloadSize f n =
      ⟨writeWAVHeader 44100 1 16 n ++ f.contents.drop 44, 44⟩ := by
  unfold patchPayloadSize fileWrite seekStart overwriteAt
  simp [writeWAVHeader_length]

theorem patchRead4 (f : FileState) (n : Nat) :
    readU32 (patchPayloadSize f n).contents 4 = (36 + n) % 4294967296 := by
  rw [patchPayloadSize_eq]; exact hdrRead4 44100 1 16 n _

theorem patchRead40 (f : FileState) (n : Nat) :
    readU32 (patchPayloadSize f n).contents 40 = n % 4294967296 := by
  rw [patchPayloadSize_eq]; exact hdrRead40 44100 1 16 n _

/-- C1 (amended): for inputs in the ranges the 44-byte layout can represent
(channels below 2^16, total size and byte rate below 2^32, block alignment
below 2^16), `writeWAVHeader` emits exactly 44 bytes with the claimed
little-endian layout, and decoding those bytes recovers the four inputs
exactly. -/
theorem c1_header_layout_roundtrip (s c b d : Nat)
    (hs : 0 < s) (hsu : s < 4294967296)
    (hc : 0 < c) (hcu : c < 65536)
    (hb : b = 8 ∨ b = 16 ∨ b = 24 ∨ b = 32)
    (hd : 36 + d < 4294967296)
    (hrate : s * c * b < 4294967296)
    (hblock : c * b < 524288) :
    (writeWAVHeader s c b d).length = 44 ∧
    (writeWAVHeader s c b d).take 4 = strBytes "RIFF" ∧
    readU32 (writeWAVHeader s c b d) 4 = 36 + d ∧
    ((writeWAVHeader s c b d).drop 8).take 4 = strBytes "WAVE" ∧
    ((writeWAVHeader s c b d).drop 12).take 4 = strBytes "fmt " ∧
    readU32 (writeWAVHeader s c b d) 16 = 16 ∧
    readU16 (writeWAVHeader s c b d) 20 = 1 ∧
    readU16 (writeWAVHeader s c b d) 22 = c ∧
    readU32 (writeWAVHeader s c b d) 24 = s ∧
    readU32 (writeWAVHeader s c b d) 28 = s * c * b / 8 ∧
    readU16 (writeWAVHeader s c b d) 32 = c * b / 8 ∧
    readU16 (writeWAVHeader s c b d) 34 = b ∧
    ((writeWAVHeader s c b d).drop 36).take 4 = strBytes "data" ∧
    readU32 (writeWAVHeader s c b d) 40 = d ∧
    decodeHeader (writeWAVHeader s c b d) = (s, c, b, d) := by
  have hnil : writeWAVHeader s c b d = writeWAVHeader s c b d ++ [] :=
    (List.append_nil _).symm
  have h4 : readU32 (writeWAVHeader s c b d) 4 = 36 + d := by
    rw [hnil, hdrRead4]; omega
  have h16 : readU32 (writeWAVHeader s c b d) 16 = 16 := by
    rw [hnil]; exact hdrRead16 s c b d []
  have h20 : readU16 (writeWAVHeader s c b d) 20 = 1 := by
    rw [hnil]; exact hdrRead20 s c b d []
  have h22 : readU16 (writeWAVHeader s c b d) 22 = c := by
    rw [hnil, hdrRead22]; omega
  have h24 : readU32 (writeWAVHeader s c b d) 24 = s := by
    rw [hnil, hdrRead24]; omega
  have h28 : readU32 (writeWAVHeader s c b d) 28 = s * c * b / 8 := by
    rw [hnil, hdrRead28]; omega
  have h32 : readU16 (writeWAVHeader s c b d) 32 = c * b / 8 := by
    rw [hnil, hdrRead32]; omega
  have h34 : readU16 (writeWAVHeader s c b d) 34 = b := by
    rw [hnil, hdrRead34]; omega
  have h40 : readU32 (writeWAVHeader s c b d) 40 = d := by
    rw [hnil, hdrRead40]; omega
  refine ⟨rfl, rfl, h4, rfl, rfl, h16, h20, h22, h24, h28, h32, h34, rfl, h40, ?_⟩
  simp [decodeHeader, h22, h24, h34, h40]

/-- C1 witness: the amended theorem applied at the concrete header
(44100 Hz, mono, 16-bit, 1000 payload bytes). -/
theorem c1_witness :
    decodeHeader (writeWAVHeader 44100 1 16 1000) = (44100, 1, 16, 1000) :=
  (c1_header_layout_roundtrip 44100 1 16 1000 (by decide) (by decide) (by decide)
    (by decide) (by decide) (by decide) (by decide)
    (by decide)).2.2.2.2.2.2.2.2.2.2.2.2.2.2

/-- C1 counterexample: with channels = 2^16 (allowed by the claim's mere
"channels > 0") the 2-byte channel-count field truncates to 0, so the field
does not equal the channel count and the decode side of the round-trip law
fails. -/
theorem c1_counterexample :
    readU16 (writeWAVHeader 44100 65536 16 0) 22 = 0 ∧
    decodeHeader (writeWAVHeader 44100 65536 16 0) ≠ (44100, 65536, 16, 0) := by
  decide

/-- C3: writing the placeholder header to a fresh sink, appending any
payload, then patching with payload size 1000 rewrites the first 44 bytes in
place: the total-size field becomes 1036, the data-length field becomes
1000, every other header byte is unchanged, the position is left at byte 44,
and the payload after the header is untouched. -/
theorem c3_patch_payload_size (payload : List Nat) :
    readU32 (patchPayloadSize (fileWrite mkChannelFile payload) 1000).contents 4 = 1036 ∧
    readU32 (patchPayloadSize (fileWrite mkChannelFile payload) 1000).contents 40 = 1000 ∧
    (∀ i, i < 44 → i < 4 ∨ 8 ≤ i ∧ i ≤ 39 →
      byteAt (patchPayloadSize (fileWrite mkChannelFile payload) 1000).contents i =
        byteAt (fileWrite mkChannelFile payload).contents i) ∧
    (patchPayloadSize (fileWrite mkChannelFile payload) 1000).pos = 44 ∧
    (patchPayloadSize (fileWrite mkChannelFile payload) 1000).contents.drop 44 = payload := by
  have hf1 : fileWrite mkChannelFile payload =
      ⟨writeWAVHeader 44100 1 16 0 ++ payload, 44 + payload.length⟩ := by
    rw [mkChannelFile_eq, fileWrite_append ⟨writeWAVHeader 44100 1 16 0, 44⟩ payload
      (writeWAVHeader_length 44100 1 16 0).symm]
    rw [writeWAVHeader_length]
  have hf2 : patchPayloadSize (fileWrite mkChannelFile payload) 1000 =
      ⟨writeWAVHeader 44100 1 16 1000 ++ payload, 44⟩ := by
    rw [patchPayloadSize_eq, hf1]
    simp [List.drop_left' (writeWAVHeader_length 44100 1 16 0)]
  refine ⟨?_, ?_, ?_, ?_, ?_⟩
  · rw [hf2]; simpa using hdrRead4 44100 1 16 1000 payload
  · rw [hf2]; simpa using hdrRead40 44100 1 16 1000 payload
  · intro i hi hcond
    rw [hf2, hf1]
    exact hdrByteIndep 1000 0 payload payload i hi hcond
  · rw [hf2]
  · rw [hf2]; exact List.drop_left' (writeWAVHeader_length 44100 1 16 1000)

/-- C3 witness: the theorem applied to a concrete three-byte payload, with
the unchanged-byte clause instantiated at offset 10. -/
theorem c3_witness :
    readU32 (patchPayloadSize (fileWrite mkChannelFile [5, 6, 7]) 1000).contents 4 = 1036 ∧
    byteAt (patchPayloadSize (fileWrite mkChannelFile [5, 6, 7]) 1000).contents 10 =
      byteAt (fileWrite mkChannelFile [5, 6, 7]).contents 10 :=
  ⟨(c3_patch_payload_size [5, 6, 7]).1,
   (c3_patch_payload_size [5, 6, 7]).2.2.1 10 (by decide) (by decide)⟩

/-! Helper lemmas about the per-buffer callback and channel teardown. -/

theorem onRecvFrames_file (c : CaptureChannel) (buf : List Nat)
    (h : c.file.pos = c.file.contents.length) :
    (onRecvFrames c buf).file = ⟨c.file.contents ++ buf, (c.file.contents ++ buf).length⟩ := by
  show fileWrite c.file buf = _
  rw [fileWrite_append c.file buf h]
  simp

theorem foldRecv (bufs : List (List Nat)) :
    ∀ c : CaptureChannel, c.file.pos = c.file.contents.length →
      c.totalBytesWritten < 4294967296 →
      (bufs.foldl onRecvFrames c).file.contents = c.file.contents ++ bufs.flatten ∧
      (bufs.foldl onRecvFrames c).file.pos =
        (bufs.foldl onRecvFrames c).file.contents.length ∧
      (bufs.foldl onRecvFrames c).totalBytesWritten =
        (c.totalBytesWritten + (bufs.map List.length).sum) % 4294967296 ∧
      (bufs.foldl onRecvFrames c).name = c.name := by
  induction bufs with
  | nil =>
    intro c h ht
    simp [List.foldl, h, Nat.mod_eq_of_lt ht]
  | cons buf rest ih =>
    intro c h ht
    have hfile := onRecvFrames_file c buf h
    have h' : (onRecvFrames c buf).file.pos = (onRecvFrames c buf).file.contents.length := by
      rw [hfile]
    have ht' : (onRecvFrames c buf).totalBytesWritten < 4294967296 := by
      show (c.totalBytesWritten + buf.length) % 4294967296 < 4294967296
      omega
    obtain ⟨h1, h2, h3, h4⟩ := ih (onRecvFrames c buf) h' ht'
    refine ⟨?_, h2, ?_, h4⟩
    · show (List.foldl onRecvFrames (onRecvFrames c buf) rest).file.contents = _
      rw [h1, hfile]
      simp
    · show (List.foldl onRecvFrames (onRecvFrames c buf) rest).totalBytesWritten = _
      rw [h3]
      show ((c.totalBytesWritten + buf.length) % 4294967296 +
        (List.map List.length rest).sum) % 4294967296 = _
      simp only [List.map_cons, List.sum_cons]
      omega

theorem stopRead40 (c : CaptureChannel) :
    readU32 (stopChannelFull c).file.contents 40 = c.totalBytesWritten % 4294967296 :=
  patchRead40 c.file c.totalBytesWritten

theorem stopRead4 (c : CaptureChannel) :
    readU32 (stopChannelFull c).file.contents 4 =
      (36 + c.totalBytesWritten) % 4294967296 :=
  patchRead4 c.file c.totalBytesWritten

theorem stopLength (c : CaptureChannel) (n : Nat)
    (h : c.file.contents.length = 44 + n) :
    (stopChannelFull c).file.contents.length = 44 + n := by
  show (patchPayloadSize c.file c.totalBytesWritten).contents.length = 44 + n
  rw [patchPayloadSize_eq]
  simp [writeWAVHeader_length, h]

theorem okChannel_pos (name : String) :
    (okChannel name).file.pos = (okChannel name).file.contents.length := by
  show mkChannelFile.pos = mkChannelFile.contents.length
  rw [mkChannelFile_eq]
  simp [writeWAVHeader_length]

theorem okChannel_counter (name : String) : (okChannel name).totalBytesWritten = 0 := rfl

theorem okChannel_counter_small (name : String) :
    (okChannel name).totalBytesWritten < 4294967296 := by
  rw [okChannel_counter]; omega

theorem okChannel_placeholder40 (name : String) :
    readU32 (okChannel name).file.contents 40 = 0 := by
  show readU32 mkChannelFile.contents 40 = 0
  rw [mkChannelFile_eq]
  have h := hdrRead40 44100 1 16 0 []
  rw [List.append_nil] at h
  simpa using h

theorem sessionFacts (name : String) (bufs : List (List Nat)) :
    (bufs.foldl onRecvFrames (okChannel name)).totalBytesWritten =
      (bufs.map List.length).sum % 4294967296 ∧
    readU32 (stopChannelFull (bufs.foldl onRecvFrames (okChannel name))).file.contents 40 =
      (bufs.map List.length).sum % 4294967296 ∧
    readU32 (stopChannelFull (bufs.foldl onRecvFrames (okChannel name))).file.contents 4 =
      (36 + (bufs.map List.length).sum) % 4294967296 ∧
    (stopChannelFull (bufs.foldl onRecvFrames (okChannel name))).file.contents.length =
      44 + (bufs.map List.length).sum := by
  obtain ⟨g1, g2, g3, g4⟩ :=
    foldRecv bufs (okChannel name) (okChannel_pos name) (okChannel_counter_small name)
  rw [okChannel_counter] at g3
  have hcounter : (bufs.foldl onRecvFrames (okChannel name)).totalBytesWritten =
      (bufs.map List.length).sum % 4294967296 := by rw [g3]; omega
  have hlen : (bufs.foldl onRecvFrames (okChannel name)).file.contents.length =
      44 + (bufs.map List.length).sum := by
    rw [g1]
    have hfile : (okChannel name).file = ⟨writeWAVHeader 44100 1 16 0, 44⟩ :=
      mkChannelFile_eq
    rw [hfile]
    simp [writeWAVHeader_length, List.length_flatten]
  refine ⟨hcounter, ?_, ?_, stopLength _ _ hlen⟩
  · rw [stopRead40, hcounter]; omega
  · rw [stopRead4, hcounter]; omega

theorem threeBufSum :
    (List.map List.length [List.replicate (512 : Nat) (0 : Nat),
      List.replicate 256 0, List.replicate 1024 0]).sum = 1792 := by
  rw [List.map_cons, List.map_cons, List.map_cons, List.map_nil,
    List.length_replicate, List.length_replicate, List.length_replicate,
    List.sum_cons, List.sum_cons, List.sum_cons, List.sum_nil]
  norm_num

theorem bigBufSumOne :
    (List.map List.length [List.replicate (4294967296 : Nat) (1 : Nat)]).sum =
      4294967296 := by
  rw [List.map_cons, List.map_nil, List.length_replicate, List.sum_cons, List.sum_nil]
  norm_num

theorem bigBufSumZero :
    (List.map List.length [List.replicate (4294967296 : Nat) (0 : Nat)]).sum =
      4294967296 := by
  rw [List.map_cons, List.map_nil, List.length_replicate, List.sum_cons, List.sum_nil]
  norm_num

/-- C2 (amended): the header written at file-creation time carries a
data-length field of 0, and after the stop-time patch the data-length field
equals the number of bytes the sink received from the per-buffer callback
reduced modulo 2^32 (exactly the byte count whenever it stays below 2^32,
as the uint32 counter requires); for the three buffers of 512, 256 and 1024
bytes the field is 1792 and the file holds 1792 + 44 bytes. -/
theorem c2_payload_accounting (name : String) (bufs : List (List Nat)) :
    readU32 (okChannel name).file.contents 40 = 0 ∧
    readU32 (stopChannelFull (bufs.foldl onRecvFrames (okChannel name))).file.contents 40 =
      (bufs.map List.length).sum % 4294967296 ∧
    (stopChannelFull (bufs.foldl onRecvFrames (okChannel name))).file.contents.length =
      44 + (bufs.map List.length).sum ∧
    readU32 (stopChannelFull (List.foldl onRecvFrames (okChannel name)
      [List.replicate 512 0, List.replicate 256 0,
       List.replicate 1024 0])).file.contents 40 = 1792 ∧
    (stopChannelFull (List.foldl onRecvFrames (okChannel name)
      [List.replicate 512 0, List.replicate 256 0,
       List.replicate 1024 0])).file.contents.length = 1792 + 44 := by
  obtain ⟨-, g40, -, glen⟩ := sessionFacts name bufs
  obtain ⟨-, k40, -, klen⟩ := sessionFacts name
    [List.replicate 512 0, List.replicate 256 0, List.replicate 1024 0]
  refine ⟨okChannel_placeholder40 name, g40, glen, ?_, ?_⟩
  · rw [k40, threeBufSum]
  · rw [klen, threeBufSum]

/-- C2 counterexample: a single callback delivering 2^32 bytes leaves the
final data-length field at 0, not at the exact number of bytes the sink
received, refuting the claim's unqualified "equals the exact number of
bytes". -/
theorem c2_counterexample :
    readU32 (stopChannelFull (List.foldl onRecvFrames (okChannel "mic")
      [List.replicate 4294967296 1])).file.contents 40 = 0 ∧
    (List.map List.length [List.replicate (4294967296 : Nat) (1 : Nat)]).sum =
      4294967296 := by
  obtain ⟨-, h40, -, -⟩ := sessionFacts "mic" [List.replicate 4294967296 1]
  refine ⟨?_, bigBufSumOne⟩
  rw [h40, bigBufSumOne]

/-- C10: the per-channel byte counter accumulates the callback's written
counts modulo 2^32, the patched header's total-size field is
(36 + payload) modulo 2^32 and its data-length field is the payload modulo
2^32; whenever a channel receives 2^32 bytes or more, the data-length field
therefore differs from the true byte count. -/
theorem c10_uint32_wraparound (name : String) (bufs : List (List Nat)) :
    (bufs.foldl onRecvFrames (okChannel name)).totalBytesWritten =
      (bufs.map List.length).sum % 4294967296 ∧
    readU32 (stopChannelFull (bufs.foldl onRecvFrames (okChannel name))).file.contents 4 =
      (36 + (bufs.map List.length).sum) % 4294967296 ∧
    readU32 (stopChannelFull (bufs.foldl onRecvFrames (okChannel name))).file.contents 40 =
      (bufs.map List.length).sum % 4294967296 ∧
    (4294967296 ≤ (bufs.map List.length).sum →
      readU32 (stopChannelFull (bufs.foldl onRecvFrames (okChannel name))).file.contents 40 ≠
        (bufs.map List.length).sum) := by
  obtain ⟨hc, h40, h4, -⟩ := sessionFacts name bufs
  refine ⟨hc, h4, h40, ?_⟩
  intro hbig
  rw [h40]
  omega

/-- C10 witness: the wraparound clause applied to a session receiving
exactly 2^32 bytes in one buffer. -/
theorem c10_witness :
    readU32 (stopChannelFull (List.foldl onRecvFrames (okChannel "sys")
      [List.replicate 4294967296 0])).file.contents 40 ≠
      (List.map List.length [List.replicate (4294967296 : Nat) (0 : Nat)]).sum :=
  (c10_uint32_wraparound "sys" [List.replicate 4294967296 0]).2.2.2 (by
    rw [bigBufSumZero])

/-! Helper lemmas about the per-device setup loop. -/

theorem loopAllOk (devices : List String) (failAt : Nat → Option SetupFailure)
    (hf : ∀ j, failAt j = none) :
    ∀ (indices : List Int) (acc : List CaptureChannel),
      (∀ i ∈ indices, 0 ≤ i ∧ i < (devices.length : Int)) →
      setupLoop devices failAt indices acc =
        (.ok (acc ++ indices.map (chFor devices)), acc ++ indices.map (chFor devices)) := by
  intro indices
  induction indices with
  | nil => intro acc _; simp [setupLoop]
  | cons idx rest ih =>
    intro acc hbounds
    obtain ⟨h0, hlen⟩ := hbounds idx (List.mem_cons_self idx rest)
    have hcond : ¬(idx < 0 ∨ (devices.length : Int) ≤ idx) := by omega
    rw [setupLoop, if_neg hcond, hf idx.toNat]
    rw [ih (acc ++ [okChannel (devices.getD idx.toNat "")])
      (fun i hi => hbounds i (List.mem_cons_of_mem idx hi))]
    simp [chFor, List.append_assoc]

theorem loopFirstBad (devices : List String) (failAt : Nat → Option SetupFailure)
    (hf : ∀ j, failAt j = none) :
    ∀ (indices : List Int) (acc : List CaptureChannel),
      (∃ i ∈ indices, i < 0 ∨ (devices.length : Int) ≤ i) →
      ∃ bad, bad ∈ indices ∧ (bad < 0 ∨ (devices.length : Int) ≤ bad) ∧
        (setupLoop devices failAt indices acc).1 =
          .error (.invalidDeviceIndex bad) := by
  intro indices
  induction indices with
  | nil => intro acc hex; simp at hex
  | cons idx rest ih =>
    intro acc hex
    by_cases hbad : idx < 0 ∨ (devices.length : Int) ≤ idx
    · refine ⟨idx, List.mem_cons_self idx rest, hbad, ?_⟩
      rw [setupLoop, if_pos hbad]
    · have hex' : ∃ i ∈ rest, i < 0 ∨ (devices.length : Int) ≤ i := by
        obtain ⟨i, hi, hout⟩ := hex
        rcases List.mem_cons.mp hi with rfl | hmem
        · exact absurd hout hbad
        · exact ⟨i, hmem, hout⟩
      obtain ⟨bad, hmem, hout, heq⟩ :=
        ih (acc ++ [okChannel (devices.getD idx.toNat "")]) hex'
      refine ⟨bad, List.mem_cons_of_mem idx hmem, hout, ?_⟩
      rw [setupLoop, if_neg hbad, hf idx.toNat]
      exact heq

theorem loopFailAt (devices : List String) (failAt : Nat → Option SetupFailure)
    (bad : Int) (post : List Int) (fk : SetupFailure)
    (h0 : 0 ≤ bad) (hlen : bad < (devices.length : Int))
    (hfk : failAt bad.toNat = some fk) :
    ∀ (pre : List Int) (acc : List CaptureChannel),
      (∀ i ∈ pre, 0 ≤ i ∧ i < (devices.length : Int) ∧ failAt i.toNat = none) →
      setupLoop devices failAt (pre ++ bad :: post) acc =
        (.error (errOf fk),
          acc ++ pre.map (chFor devices) ++ wreck fk (devices.getD bad.toNat "")) := by
  intro pre
  induction pre with
  | nil =>
    intro acc _
    have hcond : ¬(bad < 0 ∨ (devices.length : Int) ≤ bad) := by omega
    rw [List.nil_append, setupLoop, if_neg hcond, hfk]
    cases fk <;> simp [errOf, wreck]
  | cons p pre' ih =>
    intro acc hpre
    obtain ⟨hp0, hplen, hpnone⟩ := hpre p (List.mem_cons_self p pre')
    have hcond : ¬(p < 0 ∨ (devices.length : Int) ≤ p) := by omega
    rw [List.cons_append, setupLoop, if_neg hcond, hpnone]
    rw [ih (acc ++ [okChannel (devices.getD p.toNat "")])
      (fun i hi => hpre i (List.mem_cons_of_mem p hi))]
    simp [chFor, List.append_assoc]

/-- C4: startSession rejects an empty selection with NoDevicesSelected,
rejects an out-of-bounds index with InvalidDeviceIndex (naming that index)
while leaving the session state untouched, rejects a second start with
AlreadyRecording without touching the active session, and on a valid
non-empty selection with no session active creates exactly one
CaptureChannel per supplied index, in the supplied order. -/
theorem c4_startSession_contract (st : SessionState) (devices : List String)
    (failAt : Nat → Option SetupFailure) (indices : List Int) :
    (st.isRecording = true →
      startSession st devices failAt indices = (.error .alreadyRecording, st, [])) ∧
    (st.isRecording = false → indices = [] →
      startSession st devices failAt indices = (.error .noDevicesSelected, st, [])) ∧
    (st.isRecording = false → (∀ j, failAt j = none) →
      (∃ i ∈ indices, i < 0 ∨ (devices.length : Int) ≤ i) →
      ∃ bad, bad ∈ indices ∧ (bad < 0 ∨ (devices.length : Int) ≤ bad) ∧
        (startSession st devices failAt indices).1 =
          .error (.invalidDeviceIndex bad) ∧
        (startSession st devices failAt indices).2.1 = st) ∧
    (st.isRecording = false → (∀ j, failAt j = none) → indices ≠ [] →
      (∀ i ∈ indices, 0 ≤ i ∧ i < (devices.length : Int)) →
      startSession st devices failAt indices =
        (.ok (), ⟨true, indices.map (chFor devices)⟩,
          indices.map (chFor devices))) := by
  refine ⟨?_, ?_, ?_, ?_⟩
  · intro h
    simp [startSession, h]
  · intro h he
    subst he
    simp [startSession, h]
  · intro h hf hex
    obtain ⟨bad, hmem, hout, heq⟩ := loopFirstBad devices failAt hf indices [] hex
    refine ⟨bad, hmem, hout, ?_⟩
    have hne : indices.isEmpty = false := by
      cases indices with
      | nil => simp at hmem
      | cons a r => rfl
    rcases hsl : setupLoop devices failAt indices [] with ⟨res, trace⟩
    rw [hsl] at heq
    simp only at heq
    subst heq
    constructor <;> simp [startSession, h, hne, hsl]
  · intro h hf hne hbounds
    have hemp : indices.isEmpty = false := by
      cases indices with
      | nil => exact absurd rfl hne
      | cons a r => rfl
    have hsl := loopAllOk devices failAt hf indices [] hbounds
    rw [List.nil_append] at hsl
    simp [startSession, h, hemp, hsl]

/-- C4 witness: the four clauses applied at concrete states: a second start
while recording, an empty selection, the out-of-range index 5 against a
one-device enumeration, and the selection [1, 0] against two devices. -/
theorem c4_witness :
    startSession ⟨true, []⟩ ["a"] (fun _ => none) [0] =
      (.error .alreadyRecording, ⟨true, []⟩, []) ∧
    startSession ⟨false, []⟩ ["a"] (fun _ => none) [] =
      (.error .noDevicesSelected, ⟨false, []⟩, []) ∧
    (∃ bad, bad ∈ ([5] : List Int) ∧
      (bad < 0 ∨ ((["a"].length : Nat) : Int) ≤ bad) ∧
      (startSession ⟨false, []⟩ ["a"] (fun _ => none) [5]).1 =
        .error (.invalidDeviceIndex bad) ∧
      (startSession ⟨false, []⟩ ["a"] (fun _ => none) [5]).2.1 = ⟨false, []⟩) ∧
    startSession ⟨false, []⟩ ["a", "b"] (fun _ => none) [1, 0] =
      (.ok (), ⟨true, [1, 0].map (chFor ["a", "b"])⟩,
        [1, 0].map (chFor ["a", "b"])) :=
  ⟨(c4_startSession_contract ⟨true, []⟩ ["a"] (fun _ => none) [0]).1 rfl,
   (c4_startSession_contract ⟨false, []⟩ ["a"] (fun _ => none) []).2.1 rfl rfl,
   (c4_startSession_contract ⟨false, []⟩ ["a"] (fun _ => none) [5]).2.2.1 rfl
     (fun _ => rfl) ⟨5, by decide, by decide⟩,
   (c4_startSession_contract ⟨false, []⟩ ["a", "b"] (fun _ => none) [1, 0]).2.2.2 rfl
     (fun _ => rfl) (by decide) (by decide)⟩

/-- C5: stopSession on an inactive session fails with NotRecording and
changes nothing; on an active session it reports success, clears the
recording flag and the active-channel list, and leaves every formerly
active channel with its stream released, its file closed, and its header's
data-length field patched to that channel's final byte counter. -/
theorem c5_stopSession_contract (st : SessionState) :
    (st.isRecording = false →
      stopSession st = (.error .notRecording, st, st.activeCaptures)) ∧
    (st.isRecording = true →
      (stopSession st).1 = .ok () ∧
      (stopSession st).2.1 = ⟨false, []⟩ ∧
      (stopSession st).2.2 = st.activeCaptures.map stopChannelFull ∧
      ∀ c ∈ st.activeCaptures,
        (stopChannelFull c).streamReleased = true ∧
        (stopChannelFull c).streamStarted = false ∧
        (stopChannelFull c).fileOpen = false ∧
        readU32 (stopChannelFull c).file.contents 40 =
          c.totalBytesWritten % 4294967296) := by
  constructor
  · intro h
    simp [stopSession, h]
  · intro h
    refine ⟨by simp [stopSession, h], by simp [stopSession, h],
      by simp [stopSession, h], ?_⟩
    intro c _
    exact ⟨rfl, rfl, rfl, stopRead40 c⟩

/-- C5 witness: the two clauses applied at an inactive empty session and at
an active session holding one freshly set-up channel. -/
theorem c5_witness :
    stopSession ⟨false, []⟩ = (.error .notRecording, ⟨false, []⟩, []) ∧
    (stopSession ⟨true, [okChannel "m"]⟩).1 = .ok () ∧
    readU32 (stopChannelFull (okChannel "m")).file.contents 40 =
      (okChannel "m").totalBytesWritten % 4294967296 :=
  ⟨(c5_stopSession_contract ⟨false, []⟩).1 rfl,
   ((c5_stopSession_contract ⟨true, [okChannel "m"]⟩).2 rfl).1,
   (((c5_stopSession_contract ⟨true, [okChannel "m"]⟩).2 rfl).2.2.2 (okChannel "m")
     (List.mem_cons_self _ _)).2.2.2⟩

/-- C6: when per-device setup fails at some selected index after earlier
indices were set up, the whole start aborts surfacing that step's error, the
recording flag and channel list are unchanged, the devices after the failing
one are never set up, and the channels of the earlier indices are left open
and running (no rollback). -/
theorem c6_partial_failure (st : SessionState) (devices : List String)
    (failAt : Nat → Option SetupFailure) (pre post : List Int) (bad : Int)
    (fk : SetupFailure)
    (hrec : st.isRecording = false)
    (hpre : ∀ i ∈ pre, 0 ≤ i ∧ i < (devices.length : Int) ∧ failAt i.toNat = none)
    (h0 : 0 ≤ bad) (hlen : bad < (devices.length : Int))
    (hfk : failAt bad.toNat = some fk) :
    (startSession st devices failAt (pre ++ bad :: post)).1 = .error (errOf fk) ∧
    (startSession st devices failAt (pre ++ bad :: post)).2.1 = st ∧
    (startSession st devices failAt (pre ++ bad :: post)).2.2 =
      pre.map (chFor devices) ++ wreck fk (devices.getD bad.toNat "") ∧
    ∀ c ∈ pre.map (chFor devices),
      c.fileOpen = true ∧ c.streamStarted = true ∧ c.streamReleased = false := by
  have hsl := loopFailAt devices failAt bad post fk h0 hlen hfk pre [] hpre
  rw [List.nil_append] at hsl
  have hne : (pre ++ bad :: post).isEmpty = false := by
    cases pre <;> rfl
  refine ⟨?_, ?_, ?_, ?_⟩
  · simp [startSession, hrec, hne, hsl]
  · simp [startSession, hrec, hne, hsl]
  · simp [startSession, hrec, hne, hsl]
  · intro c hc
    obtain ⟨i, -, rfl⟩ := List.mem_map.mp hc
    exact ⟨rfl, rfl, rfl⟩

/-- C6 witness: a two-device enumeration where index 0 sets up fine and the
stream initialization of index 1 fails. -/
theorem c6_witness :
    (startSession ⟨false, []⟩ ["a", "b"]
      (fun j => if j = 1 then some SetupFailure.streamInit else none)
      ([0] ++ 1 :: [])).1 = .error (errOf SetupFailure.streamInit) ∧
    (startSession ⟨false, []⟩ ["a", "b"]
      (fun j => if j = 1 then some SetupFailure.streamInit else none)
      ([0] ++ 1 :: [])).2.1 = ⟨false, []⟩ :=
  ⟨(c6_partial_failure ⟨false, []⟩ ["a", "b"]
      (fun j => if j = 1 then some SetupFailure.streamInit else none)
      [0] [] 1 SetupFailure.streamInit rfl (by decide) (by decide) (by decide) rfl).1,
   (c6_partial_failure ⟨false, []⟩ ["a", "b"]
      (fun j => if j = 1 then some SetupFailure.streamInit else none)
      [0] [] 1 SetupFailure.streamInit rfl (by decide) (by decide) (by decide) rfl).2.1⟩

/-- C7 counterexample: the CLI derivation of web.go:441 only replaces spaces
(after lowercasing), so the name "BlackHole 2ch!" maps to
"blackhole_2ch!.wav", not to the "blackhole_2ch_.wav" the claimed
every-special-character rule would produce. -/
theorem c7_counterexample :
    cliSafeFilename (strBytes "BlackHole 2ch!") = strBytes "blackhole_2ch!.wav" ∧
    cliSafeFilename (strBytes "BlackHole 2ch!") ≠
      specCliFilename (strBytes "BlackHole 2ch!") := by
  decide

/-- C7 (amended): for a device name of ASCII code points — the range on
which `goLowerRune` coincides with Go's `strings.ToLower` — the CLI path
derives the filename by lowercasing the name, replacing every space (code
point 32) with an underscore (95), and appending ".wav": the output is four
code points longer, ends in ".wav", spaces become underscores, uppercase
letters are lowered, and every other character — including ASCII characters
outside [A-Za-z0-9-] such as punctuation — is kept unchanged. -/
theorem c7_cli_filename (name : List Nat) (_hascii : ∀ r ∈ name, r < 128) :
    (cliSafeFilename name).length = name.length + 4 ∧
    (cliSafeFilename name).drop name.length = strBytes ".wav" ∧
    (∀ i r, name.get? i = some r → r = 32 →
      (cliSafeFilename name).get? i = some 95) ∧
    (∀ i r, name.get? i = some r → 65 ≤ r → r ≤ 90 →
      (cliSafeFilename name).get? i = some (r + 32)) ∧
    (∀ i r, name.get? i = some r → r ≠ 32 → ¬(65 ≤ r ∧ r ≤ 90) →
      (cliSafeFilename name).get? i = some r) := by
  have hmaplen :
      ((name.map goLowerRune).map fun r => if r = 32 then 95 else r).length =
        name.length := by simp
  have hwav : (strBytes ".wav").length = 4 := by decide
  have hget : ∀ i r, name.get? i = some r →
      (cliSafeFilename name).get? i =
        some (if goLowerRune r = 32 then 95 else goLowerRune r) := by
    intro i r h
    have hlt : i < name.length := (List.get?_eq_some.mp h).1
    unfold cliSafeFilename
    rw [List.get?_append (by omega), List.get?_map, List.get?_map, h]
    rfl
  refine ⟨?_, ?_, ?_, ?_, ?_⟩
  · simp [cliSafeFilename, hwav]
  · exact List.drop_left' hmaplen
  · intro i r h hr
    rw [hget i r h, hr]
    rfl
  · intro i r h h65 h90
    rw [hget i r h]
    have hlow : goLowerRune r = r + 32 := if_pos ⟨h65, h90⟩
    rw [hlow, if_neg (by omega)]
  · intro i r h hr hupper
    rw [hget i r h]
    have hlow : goLowerRune r = r := if_neg hupper
    rw [hlow, if_neg hr]

/-- C7 witness: the amended clauses at one-character names: a space becomes
an underscore, an uppercase letter is lowered, and a character outside the
sanitization class (33, the exclamation mark) is kept. -/
theorem c7_witness :
    (cliSafeFilename [32]).get? 0 = some 95 ∧
    (cliSafeFilename [65]).get? 0 = some (65 + 32) ∧
    (cliSafeFilename [33]).get? 0 = some 33 :=
  ⟨(c7_cli_filename [32] (by decide)).2.2.1 0 32 rfl rfl,
   (c7_cli_filename [65] (by decide)).2.2.2.1 0 65 rfl (by decide) (by decide),
   (c7_cli_filename [33] (by decide)).2.2.2.2 0 33 rfl (by decide) (by decide)⟩

/-- C8: sanitizeFilename keeps every character of the class [A-Za-z0-9-]
unchanged, replaces every character outside the class by an underscore,
preserves the length and the character order, and in particular maps
"BlackHole 2ch!" to "BlackHole_2ch_". -/
theorem c8_sanitize_filename (name : List Nat) :
    (sanitizeFilename name).length = name.length ∧
    (∀ i r, name.get? i = some r →
      (sanitizeFilename name).get? i =
        some (if (97 ≤ r ∧ r ≤ 122) ∨ (65 ≤ r ∧ r ≤ 90) ∨
          (48 ≤ r ∧ r ≤ 57) ∨ r = 45 then r else 95)) ∧
    sanitizeFilename (strBytes "BlackHole 2ch!") = strBytes "BlackHole_2ch_" := by
  refine ⟨by simp [sanitizeFilename], ?_, by decide⟩
  intro i r h
  unfold sanitizeFilename
  rw [List.get?_map, h]
  rfl

/-- C8 witness: the elementwise clause at a kept letter and at a replaced
space. -/
theorem c8_witness :
    (sanitizeFilename [66]).get? 0 =
      some (if (97 ≤ 66 ∧ 66 ≤ 122) ∨ (65 ≤ 66 ∧ 66 ≤ 90) ∨
        (48 ≤ 66 ∧ 66 ≤ 57) ∨ 66 = 45 then 66 else 95) ∧
    (sanitizeFilename [32]).get? 0 =
      some (if (97 ≤ 32 ∧ 32 ≤ 122) ∨ (65 ≤ 32 ∧ 32 ≤ 90) ∨
        (48 ≤ 32 ∧ 32 ≤ 57) ∨ 32 = 45 then 32 else 95) :=
  ⟨(c8_sanitize_filename [66]).2.1 0 66 rfl,
   (c8_sanitize_filename [32]).2.1 0 32 rfl⟩

/-! Helper lemmas about the path functions. -/

theorem dropWhile_head_false (p : Char → Bool) :
    ∀ (l : List Char) (a : Char) (rest : List Char),
      l.dropWhile p = a :: rest → p a = false := by
  intro l
  induction l with
  | nil => intro a rest h; simp [List.dropWhile] at h
  | cons x xs ih =>
    intro a rest h
    rw [List.dropWhile_cons] at h
    by_cases hx : p x = true
    · rw [if_pos hx] at h
      exact ih a rest h
    · rw [if_neg hx] at h
      cases h
      exact Bool.eq_false_iff.mpr hx

theorem mem_takeWhile_true (p : Char → Bool) :
    ∀ (l : List Char) (a : Char), a ∈ l.takeWhile p → p a = true := by
  intro l
  induction l with
  | nil => intro a h; simp [List.takeWhile] at h
  | cons x xs ih =>
    intro a h
    rw [List.takeWhile_cons] at h
    by_cases hx : p x = true
    · rw [if_pos hx] at h
      rcases List.mem_cons.mp h with rfl | hmem
      · exact hx
      · exact ih a hmem
    · rw [if_neg hx] at h
      simp at h

theorem goBase_shape (path : List Char) :
    goBase path = ['.'] ∨ goBase path = ['/'] ∨
      (goBase path ≠ [] ∧ '/' ∉ goBase path) := by
  unfold goBase
  by_cases hnil : path = []
  · rw [if_pos hnil]; left; rfl
  · rw [if_neg hnil]
    by_cases hstrip : stripTrailingSlashes path = []
    · rw [if_pos hstrip]; right; left; rfl
    · rw [if_neg hstrip]
      right; right
      constructor
      · -- the stripped path ends in a non-slash character, so the suffix
        -- after the last slash is nonempty
        unfold afterLastSlash
        intro hcontra
        rw [List.reverse_eq_nil_iff] at hcontra
        rcases hhead : (stripTrailingSlashes path).reverse with _ | ⟨a, rest⟩
        · exact hstrip (by simpa [List.reverse_eq_nil_iff] using hhead)
        · have hpa : isSlash a = false := by
            apply dropWhile_head_false isSlash path.reverse a rest
            unfold stripTrailingSlashes at hhead
            rwa [List.reverse_reverse] at hhead
          rw [hhead, List.takeWhile_cons, hpa] at hcontra
          simp at hcontra
      · -- every character kept by takeWhile satisfies the non-slash test
        intro hmem
        unfold afterLastSlash at hmem
        rw [List.mem_reverse] at hmem
        have h := mem_takeWhile_true (fun c => !(isSlash c)) _ '/' hmem
        simp [isSlash] at h

theorem splitOnSlash_ne_nil (l : List Char) : splitOnSlash l ≠ [] := by
  cases l with
  | nil => simp [splitOnSlash]
  | cons c rest =>
    rw [splitOnSlash]
    rcases h : splitOnSlash rest with _ | ⟨g, gs⟩
    · simp
    · by_cases hc : c = '/' <;> simp [hc]

theorem splitOnSlash_no_slash :
    ∀ (l : List Char), '/' ∉ l → splitOnSlash l = [l] := by
  intro l
  induction l with
  | nil => intro _; rfl
  | cons c rest ih =>
    intro hmem
    have hc : c ≠ '/' := fun h => hmem (h ▸ List.mem_cons_self c rest)
    have hrest : '/' ∉ rest := fun h => hmem (List.mem_cons_of_mem c h)
    rw [splitOnSlash, ih hrest]
    simp [hc]

theorem splitOnSlash_append (b : List Char) :
    ∀ (a : List Char), '/' ∉ a →
      splitOnSlash (a ++ '/' :: b) = a :: splitOnSlash b := by
  intro a
  induction a with
  | nil =>
    intro _
    rw [List.nil_append, splitOnSlash]
    rcases h : splitOnSlash b with _ | ⟨g, gs⟩
    · exact absurd h (splitOnSlash_ne_nil b)
    · simp
  | cons c rest ih =>
    intro hmem
    have hc : c ≠ '/' := fun h => hmem (h ▸ List.mem_cons_self c rest)
    have hrest : '/' ∉ rest := fun h => hmem (List.mem_cons_of_mem c h)
    rw [List.cons_append, splitOnSlash, ih hrest]
    simp [hc]

theorem intercalate_pair (x y : List Char) :
    List.intercalate ['/'] [x, y] = x ++ '/' :: y := by
  simp [List.intercalate, List.intersperse]

theorem isPrefixOf_self_append (l t : List Char) : l.isPrefixOf (l ++ t) = true := by
  induction l with
  | nil => simp [List.isPrefixOf]
  | cons c rest ih => simp [List.isPrefixOf, ih]

theorem goJoin2_keep (b : List Char) (hb : b ≠ []) (hns : '/' ∉ b)
    (hb1 : b ≠ ['.']) (hb2 : b ≠ ['.', '.']) :
    goJoin2 outputDirectory b = outputDirectory ++ '/' :: b := by
  have hsplit : splitOnSlash (outputDirectory ++ '/' :: b) = [outputDirectory, b] := by
    rw [splitOnSlash_append b outputDirectory (by decide),
        splitOnSlash_no_slash b hns]
  have hhead : (outputDirectory ++ '/' :: b).head? = some 'r' := rfl
  have hpne : outputDirectory ++ '/' :: b ≠ [] := by simp
  have hone : outputDirectory ≠ [] := by decide
  have hfalse : ((some 'r' : Option Char) == some '/') = false := rfl
  have hstep1 : cleanStep false [] outputDirectory = [outputDirectory] := by decide
  have hstep2 : cleanStep false [outputDirectory] b = [b, outputDirectory] := by
    unfold cleanStep
    rw [if_neg (by simp [hb, hb1]), if_neg hb2]
  unfold goJoin2
  rw [if_neg (by simp [hone]), if_neg hone, if_neg hb]
  unfold goClean
  rw [if_neg hpne]
  simp only [hhead, hsplit, hfalse, List.foldl_cons, List.foldl_nil,
    hstep1, hstep2]
  rw [show ([b, outputDirectory]).reverse = [outputDirectory, b] by simp,
    intercalate_pair]
  simp [hpne]

/-- C9: every request the download handler actually serves resolves to the
recordings directory itself or to a single slash-free entry directly inside
it; in particular no ".." and no path with a separator can escape the
directory, for any request path whatsoever. -/
theorem c9_download_confined (urlPath p : List Char)
    (h : handleDownloadRecording urlPath = some p) :
    p = outputDirectory ∨
    ∃ b, p = outputDirectory ++ '/' :: b ∧ b ≠ [] ∧ '/' ∉ b ∧
      b ≠ ['.', '.'] ∧ b ≠ ['.'] := by
  simp only [handleDownloadRecording] at h
  rcases goBase_shape (urlPath.drop 12) with hb | hb | ⟨hne, hns⟩
  · rw [hb, show goJoin2 outputDirectory ['.'] = outputDirectory by decide,
      if_pos (by decide)] at h
    left
    exact (Option.some.injEq _ _ ▸ h).symm
  · rw [hb, show goJoin2 outputDirectory ['/'] = outputDirectory by decide,
      if_pos (by decide)] at h
    left
    exact (Option.some.injEq _ _ ▸ h).symm
  · by_cases hb1 : goBase (urlPath.drop 12) = ['.']
    · rw [hb1, show goJoin2 outputDirectory ['.'] = outputDirectory by decide,
        if_pos (by decide)] at h
      left
      exact (Option.some.injEq _ _ ▸ h).symm
    by_cases hb2 : goBase (urlPath.drop 12) = ['.', '.']
    · rw [hb2, show goJoin2 outputDirectory ['.', '.'] = ['.'] by decide,
        if_neg (by decide)] at h
      exact absurd h (by simp)
    · rw [goJoin2_keep (goBase (urlPath.drop 12)) hne hns hb1 hb2,
        if_pos (isPrefixOf_self_append _ _)] at h
      right
      exact ⟨goBase (urlPath.drop 12), (Option.some.injEq _ _ ▸ h).symm,
        hne, hns, hb2, hb1⟩

/-- C9 witness: the handler serves the request for "a.wav" and the served
path lies directly inside the recordings directory. -/
theorem c9_witness :
    "recordings/a.wav".toList = outputDirectory ∨
    ∃ b, "recordings/a.wav".toList = outputDirectory ++ '/' :: b ∧ b ≠ [] ∧
      '/' ∉ b ∧ b ≠ ['.', '.'] ∧ b ≠ ['.'] :=
  c9_download_confined "/recordings/a.wav".toList "recordings/a.wav".toList
    (by decide)
